import Mathlib

/-!
Shallow embedding of the m3d 3D math library (src/vectors.rs, src/matrices.rs,
src/quaternion.rs).  The generic floating-point scalar parameter `F: Float` of
the Rust code is modelled by the real numbers, so every floating-point
"approximately equal within tolerance" contract becomes an exact equality or
inequality over ℝ.  Division by zero in ℝ yields 0 (Mathlib convention) where
IEEE-754 yields NaN; all counterexamples below are chosen so that this
difference does not matter (they already diverge in components computed
without any division by zero).
-/

namespace M3d

noncomputable section

open scoped Classical

/-- Vector3 from src/vectors.rs: three scalar components, stored as `v: [F; 3]`
with accessors `x()`, `y()`, `z()`; modelled as three named fields. -/
@[ext]
structure Vector3 where
  x : ℝ
  y : ℝ
  z : ℝ

/-- Vector3::zero. -/
def Vector3.zero : Vector3 := ⟨0, 0, 0⟩

/-- Vector3::sum (the Add impl): component-wise addition. -/
def Vector3.sum (a b : Vector3) : Vector3 :=
  ⟨a.x + b.x, a.y + b.y, a.z + b.z⟩

/-- Vector3::product_scalar (the Mul by scalar impl): scales each component. -/
def Vector3.product_scalar (a : Vector3) (s : ℝ) : Vector3 :=
  ⟨a.x * s, a.y * s, a.z * s⟩

/-- Vector3::quotient_scalar (the Div by scalar impl): divides each component. -/
def Vector3.quotient_scalar (a : Vector3) (s : ℝ) : Vector3 :=
  ⟨a.x / s, a.y / s, a.z / s⟩

/-- Vector3::dot. -/
def Vector3.dot (a b : Vector3) : ℝ :=
  a.x * b.x + a.y * b.y + a.z * b.z

/-- Vector3::cross. -/
def Vector3.cross (a b : Vector3) : Vector3 :=
  ⟨a.y * b.z - a.z * b.y, a.z * b.x - a.x * b.z, a.x * b.y - a.y * b.x⟩

/-- Vector3::magnitude: square root of the sum of squared components. -/
def Vector3.magnitude (a : Vector3) : ℝ :=
  Real.sqrt (a.x * a.x + a.y * a.y + a.z * a.z)

/-- Vector3::opposite (the Neg impl): negates each component. -/
def Vector3.opposite (a : Vector3) : Vector3 :=
  ⟨-a.x, -a.y, -a.z⟩

/-- Matrix3 from src/matrices.rs: `m: [Vector3<F>; 3]`, three rows. -/
@[ext]
structure Matrix3 where
  r0 : Vector3
  r1 : Vector3
  r2 : Vector3

/-- Matrix3::identity. -/
def Matrix3.identity : Matrix3 :=
  ⟨⟨1, 0, 0⟩, ⟨0, 1, 0⟩, ⟨0, 0, 1⟩⟩

/-- Matrix3::mul: the triple loop `res[i][j] += lhs[i][k] * rhs[k][j]`,
unrolled. -/
def Matrix3.mul (a b : Matrix3) : Matrix3 :=
  ⟨⟨a.r0.x * b.r0.x + a.r0.y * b.r1.x + a.r0.z * b.r2.x,
    a.r0.x * b.r0.y + a.r0.y * b.r1.y + a.r0.z * b.r2.y,
    a.r0.x * b.r0.z + a.r0.y * b.r1.z + a.r0.z * b.r2.z⟩,
   ⟨a.r1.x * b.r0.x + a.r1.y * b.r1.x + a.r1.z * b.r2.x,
    a.r1.x * b.r0.y + a.r1.y * b.r1.y + a.r1.z * b.r2.y,
    a.r1.x * b.r0.z + a.r1.y * b.r1.z + a.r1.z * b.r2.z⟩,
   ⟨a.r2.x * b.r0.x + a.r2.y * b.r1.x + a.r2.z * b.r2.x,
    a.r2.x * b.r0.y + a.r2.y * b.r1.y + a.r2.z * b.r2.y,
    a.r2.x * b.r0.z + a.r2.y * b.r1.z + a.r2.z * b.r2.z⟩⟩

/-- Matrix3::div: the body of `div` in src/matrices.rs is the very same triple
loop `res[i][j] += lhs[i][k] * rhs[k][j]` as `mul`, unrolled identically. -/
def Matrix3.div (a b : Matrix3) : Matrix3 :=
  ⟨⟨a.r0.x * b.r0.x + a.r0.y * b.r1.x + a.r0.z * b.r2.x,
    a.r0.x * b.r0.y + a.r0.y * b.r1.y + a.r0.z * b.r2.y,
    a.r0.x * b.r0.z + a.r0.y * b.r1.z + a.r0.z * b.r2.z⟩,
   ⟨a.r1.x * b.r0.x + a.r1.y * b.r1.x + a.r1.z * b.r2.x,
    a.r1.x * b.r0.y + a.r1.y * b.r1.y + a.r1.z * b.r2.y,
    a.r1.x * b.r0.z + a.r1.y * b.r1.z + a.r1.z * b.r2.z⟩,
   ⟨a.r2.x * b.r0.x + a.r2.y * b.r1.x + a.r2.z * b.r2.x,
    a.r2.x * b.r0.y + a.r2.y * b.r1.y + a.r2.z * b.r2.y,
    a.r2.x * b.r0.z + a.r2.y * b.r1.z + a.r2.z * b.r2.z⟩⟩

/-- Matrix3::div_scalar: divides every entry by the scalar. -/
def Matrix3.div_scalar (a : Matrix3) (s : ℝ) : Matrix3 :=
  ⟨a.r0.quotient_scalar s, a.r1.quotient_scalar s, a.r2.quotient_scalar s⟩

/-- Matrix3::transpose: the swap loop exchanges `m[i][j]` and `m[j][i]` for
every pair with `i > j`, whose net effect is the full transpose. -/
def Matrix3.transpose (a : Matrix3) : Matrix3 :=
  ⟨⟨a.r0.x, a.r1.x, a.r2.x⟩, ⟨a.r0.y, a.r1.y, a.r2.y⟩, ⟨a.r0.z, a.r1.z, a.r2.z⟩⟩

/-- Matrix3::determinant: the loop
`res += m[0][i]*m[1][(i+1)%3]*m[2][(i+2)%3] - m[0][i]*m[1][(i+2)%3]*m[2][(i+1)%3]`
for i = 0, 1, 2, unrolled. -/
def Matrix3.determinant (a : Matrix3) : ℝ :=
  a.r0.x * a.r1.y * a.r2.z - a.r0.x * a.r1.z * a.r2.y +
    a.r0.y * a.r1.z * a.r2.x - a.r0.y * a.r1.x * a.r2.z +
    a.r0.z * a.r1.x * a.r2.y - a.r0.z * a.r1.y * a.r2.x

/-- Matrix3::inverse: returns identity when the determinant is zero.
Otherwise the source applies the i>j swap loop to a copy of `self` (which is
then discarded) and to `res` initialised to the identity, then divides every
entry of `res` by the determinant and returns `res`; so the returned value is
the transposed identity with each entry divided by the determinant. -/
def Matrix3.inverse (a : Matrix3) : Matrix3 :=
  if a.determinant = 0 then Matrix3.identity
  else Matrix3.identity.transpose.div_scalar a.determinant

/-- Vector3::product_matrix (the Mul by Matrix3 impl): the loop
`result[i] += self[j] * other[j][i]`, i.e. a row vector times the matrix. -/
def Vector3.product_matrix (v : Vector3) (m : Matrix3) : Vector3 :=
  ⟨v.x * m.r0.x + v.y * m.r1.x + v.z * m.r2.x,
   v.x * m.r0.y + v.y * m.r1.y + v.z * m.r2.y,
   v.x * m.r0.z + v.y * m.r1.z + v.z * m.r2.z⟩

/-- Quaternion from src/quaternion.rs: real part `w` and vector part `v`. -/
@[ext]
structure Quaternion where
  w : ℝ
  v : Vector3

/-- Quaternion::identity. -/
def Quaternion.identity : Quaternion := ⟨1, Vector3.zero⟩

/-- Rust f64::to_radians, used by the quaternion constructors:
`self * (PI / 180.0)`. -/
def toRadians (x : ℝ) : ℝ := x * (Real.pi / 180)

/-- Quaternion::from_axis_angle: `half = angle.to_radians() / 2`,
`w = half.cos()`, `v = axis * half.sin()`.  The axis is not normalized. -/
def Quaternion.from_axis_angle (axis : Vector3) (angle : ℝ) : Quaternion :=
  ⟨Real.cos (toRadians angle / 2),
   axis.product_scalar (Real.sin (toRadians angle / 2))⟩

/-- Quaternion::from_euler_angles, exactly as written in the source (with
`half_x = x.to_radians()/2` and so on). -/
def Quaternion.from_euler_angles (x y z : ℝ) : Quaternion :=
  ⟨Real.cos (toRadians x / 2) * Real.cos (toRadians y / 2) * Real.cos (toRadians z / 2) +
     Real.sin (toRadians x / 2) * Real.sin (toRadians y / 2) * Real.sin (toRadians z / 2),
   ⟨Real.cos (toRadians x / 2) * Real.sin (toRadians y / 2) * Real.cos (toRadians z / 2) -
      Real.sin (toRadians x / 2) * Real.cos (toRadians y / 2) * Real.sin (toRadians z / 2),
    Real.cos (toRadians x / 2) * Real.cos (toRadians y / 2) * Real.sin (toRadians z / 2) -
      Real.sin (toRadians x / 2) * Real.sin (toRadians y / 2) * Real.cos (toRadians z / 2),
    Real.cos (toRadians x / 2) * Real.sin (toRadians y / 2) * Real.sin (toRadians z / 2) +
      Real.sin (toRadians x / 2) * Real.cos (toRadians y / 2) * Real.cos (toRadians z / 2)⟩⟩

/-- Quaternion::conjugate: negates the vector part. -/
def Quaternion.conjugate (q : Quaternion) : Quaternion :=
  ⟨q.w, q.v.opposite⟩

/-- Quaternion::product (the Hamilton product, the Mul impl):
`w = w1*w2 - v1.dot(v2)`, `v = v1.cross(v2) + v1*w2 + v2*w1`
(left-associated additions, as in the source). -/
def Quaternion.product (q1 q2 : Quaternion) : Quaternion :=
  ⟨q1.w * q2.w - q1.v.dot q2.v,
   ((q1.v.cross q2.v).sum (q1.v.product_scalar q2.w)).sum (q2.v.product_scalar q1.w)⟩

/-- Quaternion::quotient (the Div impl), transcribed verbatim from the
component formulas in the source; note every denominator is built from the
components of `q1` (self), with varying sign patterns. -/
def Quaternion.quotient (q1 q2 : Quaternion) : Quaternion :=
  ⟨(q1.w * q2.w + q1.v.x * q2.v.x + q1.v.y * q2.v.y + q1.v.z * q2.v.z) /
     (q1.w * q1.w + q1.v.x * q1.v.x + q1.v.y * q1.v.y + q1.v.z * q1.v.z),
   ⟨(q1.w * q2.v.x - q1.v.x * q2.w + q1.v.y * q2.v.z - q1.v.z * q2.v.y) /
      (q1.w * q1.w - q1.v.x * q1.v.x + q1.v.y * q1.v.y - q1.v.z * q1.v.z),
    (q1.w * q2.v.y - q1.v.x * q2.v.z + q1.v.y * q2.w + q1.v.z * q2.v.x) /
      (q1.w * q1.w - q1.v.x * q1.v.x - q1.v.y * q1.v.y + q1.v.z * q1.v.z),
    (q1.w * q2.v.z + q1.v.x * q2.v.y - q1.v.y * q2.v.x + q1.v.z * q2.w) /
      (q1.w * q1.w + q1.v.x * q1.v.x - q1.v.y * q1.v.y - q1.v.z * q1.v.z)⟩⟩

/-- Quaternion::norm: `sqrt(w*w + v.dot(v))`. -/
def Quaternion.norm (q : Quaternion) : ℝ :=
  Real.sqrt (q.w * q.w + q.v.dot q.v)

/-- Quaternion::versor: divides each component by the norm. -/
def Quaternion.versor (q : Quaternion) : Quaternion :=
  ⟨q.w / q.norm, q.v.quotient_scalar q.norm⟩

/-- Quaternion Div by a scalar (the Div impl): divides each component. -/
def Quaternion.div_scalar (q : Quaternion) (s : ℝ) : Quaternion :=
  ⟨q.w / s, q.v.quotient_scalar s⟩

/-- Quaternion::inverse: `conjugate() / (norm() * norm())`. -/
def Quaternion.inverse (q : Quaternion) : Quaternion :=
  q.conjugate.div_scalar (q.norm * q.norm)

/-- Quaternion::exp: `n = norm()`, result is `(cos n, versor().v * sin n)`.
Note the versor and cos/sin use the norm of the whole quaternion, not of its
vector part. -/
def Quaternion.exp (q : Quaternion) : Quaternion :=
  ⟨Real.cos q.norm, q.versor.v.product_scalar (Real.sin q.norm)⟩

/-- Quaternion::log: `c = norm().ln()`, result is `(c, versor().v * c)`.
Note the vector part is scaled by `ln(norm)`, not by a rotation angle. -/
def Quaternion.log (q : Quaternion) : Quaternion :=
  ⟨Real.log q.norm, q.versor.v.product_scalar (Real.log q.norm)⟩

/-- Quaternion::pow in the source is `self.exp() * self.pow(n - 1.0)` with no
base case, a non-terminating recursion.  It is modelled here with an explicit
fuel parameter: each unfolding consumes one unit of fuel and the recursion
never returns on its own, so running out of fuel (result `none`) at every
fuel value models the divergence of the original. -/
def Quaternion.powFuel : Nat → Quaternion → ℝ → Option Quaternion
  | 0, _, _ => none
  | Nat.succ k, q, n => (Quaternion.powFuel k q (n - 1)).map (fun r => q.exp.product r)

/-- Quaternion::rotate_vector: embeds `v` as the pure quaternion `(0, v)` and
returns the vector part of `self * p * self.conjugate()`. -/
def Quaternion.rotate_vector (q : Quaternion) (v : Vector3) : Vector3 :=
  ((q.product ⟨0, v⟩).product q.conjugate).v

/-- Quaternion::rotation_matrix: starts from the identity matrix and
overwrites all nine entries with the listed formulas; the net result is the
matrix written out here. -/
def Quaternion.rotation_matrix (q : Quaternion) : Matrix3 :=
  ⟨⟨2 * q.w * q.w - 1 + 2 * q.v.x * q.v.x,
    2 * q.v.x * q.v.y + 2 * q.w * q.v.z,
    2 * q.v.x * q.v.z - 2 * q.w * q.v.y⟩,
   ⟨2 * q.v.x * q.v.y - 2 * q.w * q.v.z,
    2 * q.w * q.w - 1 + 2 * q.v.y * q.v.y,
    2 * q.v.y * q.v.z + 2 * q.w * q.v.x⟩,
   ⟨2 * q.v.x * q.v.z + 2 * q.w * q.v.y,
    2 * q.v.y * q.v.z - 2 * q.w * q.v.x,
    2 * q.w * q.w - 1 + 2 * q.v.z * q.v.z⟩⟩

/-! Theorems -/

/-- Claim C9: matrix-by-matrix division on Matrix3 (the div method, exposed as
the / operator between matrices) computes exactly the same result as matrix
multiplication: for every pair of 3x3 matrices m1, m2, m1.div(m2) equals
m1.mul(m2).  The two method bodies in src/matrices.rs are identical. -/
theorem C9_div_computes_mul : ∀ m1 m2 : Matrix3, m1.div m2 = m1.mul m2 :=
  fun _ _ => rfl

/-- Claim C7: for every 3x3 matrix m whose determinant equals zero,
m.inverse() returns the identity matrix. -/
theorem C7_inverse_singular_is_identity (m : Matrix3) (h : m.determinant = 0) :
    m.inverse = Matrix3.identity := by
  unfold Matrix3.inverse
  rw [if_pos h]

/-- Witness for C7 at the singular matrix [[1,2,3],[4,5,6],[7,8,9]]. -/
theorem C7_inverse_singular_is_identity_witness :
    (Matrix3.mk ⟨1, 2, 3⟩ ⟨4, 5, 6⟩ ⟨7, 8, 9⟩).determinant = 0 ∧
      (Matrix3.mk ⟨1, 2, 3⟩ ⟨4, 5, 6⟩ ⟨7, 8, 9⟩).inverse = Matrix3.identity := by
  have h : (Matrix3.mk ⟨1, 2, 3⟩ ⟨4, 5, 6⟩ ⟨7, 8, 9⟩).determinant = 0 := by
    norm_num [Matrix3.determinant]
  exact ⟨h, C7_inverse_singular_is_identity _ h⟩

/-- Claim C2 (code_bug): the claim says pow is total and computes
exp(log(q) * n), but the source is the base-case-free recursion
`self.exp() * self.pow(n - 1.0)`; modelled with fuel, no amount of fuel makes
it return, i.e. the recursion diverges on every input. -/
theorem C2_pow_never_terminates :
    ∀ (fuel : Nat) (q : Quaternion) (n : ℝ), Quaternion.powFuel fuel q n = none := by
  intro fuel
  induction fuel with
  | zero => intro q n; rfl
  | succ k ih =>
      intro q n
      simp [Quaternion.powFuel, ih]

/-- Claim C6: the Hamilton product of (w1,v1) and (w2,v2) is
(w1*w2 - v1.dot(v2), w1*v2 + w2*v1 + v1.cross(v2)); in particular
(1,[2,3,4]) * (5,[6,7,8]) = (-60,[12,30,24]) exactly. -/
theorem C6_hamilton_product :
    (∀ q1 q2 : Quaternion, q1.product q2 =
      ⟨q1.w * q2.w - q1.v.dot q2.v,
        ((q2.v.product_scalar q1.w).sum (q1.v.product_scalar q2.w)).sum
          (q1.v.cross q2.v)⟩) ∧
      Quaternion.product ⟨1, ⟨2, 3, 4⟩⟩ ⟨5, ⟨6, 7, 8⟩⟩ = ⟨-60, ⟨12, 30, 24⟩⟩ := by
  constructor
  · intro q1 q2
    simp only [Quaternion.product, Vector3.sum, Vector3.cross, Vector3.dot,
      Vector3.product_scalar, Quaternion.mk.injEq, Vector3.mk.injEq]
    refine ⟨by ring_nf, by ring, by ring, by ring⟩
  · simp only [Quaternion.product, Vector3.sum, Vector3.cross, Vector3.dot,
      Vector3.product_scalar, Quaternion.mk.injEq, Vector3.mk.injEq]
    norm_num

/-- Counterexample for claim C10: at m = [[1,2,0],[0,1,0],[0,0,1]] the
determinant is 1 but m.inverse() is the identity matrix, not
m.transpose() / det (whose row 1 starts with 2). -/
theorem C10_counterexample :
    (Matrix3.mk ⟨1, 2, 0⟩ ⟨0, 1, 0⟩ ⟨0, 0, 1⟩).determinant ≠ 0 ∧
      (Matrix3.mk ⟨1, 2, 0⟩ ⟨0, 1, 0⟩ ⟨0, 0, 1⟩).inverse ≠
        (Matrix3.mk ⟨1, 2, 0⟩ ⟨0, 1, 0⟩ ⟨0, 0, 1⟩).transpose.div_scalar
          (Matrix3.mk ⟨1, 2, 0⟩ ⟨0, 1, 0⟩ ⟨0, 0, 1⟩).determinant := by
  have hd : (Matrix3.mk ⟨1, 2, 0⟩ ⟨0, 1, 0⟩ ⟨0, 0, 1⟩).determinant = 1 := by
    norm_num [Matrix3.determinant]
  refine ⟨by rw [hd]; norm_num, ?_⟩
  intro h
  have h10 := congrArg (fun m => m.r1.x) h
  simp only [Matrix3.inverse, hd, Matrix3.transpose, Matrix3.div_scalar,
    Vector3.quotient_scalar, Matrix3.identity] at h10
  norm_num at h10

/-- Amended claim C10: for every 3x3 matrix m with nonzero determinant,
m.inverse() returns the identity matrix with every entry divided by
m.determinant() (the transpose swap in the source is applied to a discarded
copy of m and to the symmetric identity), so it is the diagonal matrix
diag(1/det, 1/det, 1/det), not the transpose over the determinant and not a
true inverse. -/
theorem C10_inverse_is_identity_over_det (m : Matrix3) (h : m.determinant ≠ 0) :
    m.inverse = ⟨⟨1 / m.determinant, 0, 0⟩, ⟨0, 1 / m.determinant, 0⟩,
      ⟨0, 0, 1 / m.determinant⟩⟩ := by
  unfold Matrix3.inverse
  rw [if_neg h]
  simp [Matrix3.identity, Matrix3.transpose, Matrix3.div_scalar,
    Vector3.quotient_scalar]

/-- Witness for the amended C10 at m = [[1,2,0],[0,1,0],[0,0,1]]. -/
theorem C10_inverse_is_identity_over_det_witness :
    (Matrix3.mk ⟨1, 2, 0⟩ ⟨0, 1, 0⟩ ⟨0, 0, 1⟩).determinant ≠ 0 ∧
      (Matrix3.mk ⟨1, 2, 0⟩ ⟨0, 1, 0⟩ ⟨0, 0, 1⟩).inverse =
        ⟨⟨1 / (Matrix3.mk ⟨1, 2, 0⟩ ⟨0, 1, 0⟩ ⟨0, 0, 1⟩).determinant, 0, 0⟩,
         ⟨0, 1 / (Matrix3.mk ⟨1, 2, 0⟩ ⟨0, 1, 0⟩ ⟨0, 0, 1⟩).determinant, 0⟩,
         ⟨0, 0, 1 / (Matrix3.mk ⟨1, 2, 0⟩ ⟨0, 1, 0⟩ ⟨0, 0, 1⟩).determinant⟩⟩ := by
  have h : (Matrix3.mk ⟨1, 2, 0⟩ ⟨0, 1, 0⟩ ⟨0, 0, 1⟩).determinant ≠ 0 := by
    norm_num [Matrix3.determinant]
  exact ⟨h, C10_inverse_is_identity_over_det _ h⟩

/-- Claim C1 (code_bug): the claim (and the doc comment of quotient itself,
`q1 * conj(q2) / |q2|^2`) says q1.quotient(q2) = q1.product(q2.inverse()),
but at q1 = (1,[0,0,0]), q2 = (0,[1,0,0]) the implemented quotient returns
(0,[1,0,0]) while q1.product(q2.inverse()) = (0,[-1,0,0]); no division by
zero is involved (q2 has norm 1). -/
theorem C1_quotient_deviates_from_product_inverse :
    (Quaternion.mk 0 ⟨1, 0, 0⟩).norm = 1 ∧
      Quaternion.quotient ⟨1, ⟨0, 0, 0⟩⟩ ⟨0, ⟨1, 0, 0⟩⟩ = ⟨0, ⟨1, 0, 0⟩⟩ ∧
      Quaternion.product ⟨1, ⟨0, 0, 0⟩⟩ (Quaternion.inverse ⟨0, ⟨1, 0, 0⟩⟩) =
        ⟨0, ⟨-1, 0, 0⟩⟩ ∧
      Quaternion.quotient ⟨1, ⟨0, 0, 0⟩⟩ ⟨0, ⟨1, 0, 0⟩⟩ ≠
        Quaternion.product ⟨1, ⟨0, 0, 0⟩⟩ (Quaternion.inverse ⟨0, ⟨1, 0, 0⟩⟩) := by
  have hn : (Quaternion.mk 0 ⟨1, 0, 0⟩).norm = 1 := by
    simp [Quaternion.norm, Vector3.dot]
  have hq : Quaternion.quotient ⟨1, ⟨0, 0, 0⟩⟩ ⟨0, ⟨1, 0, 0⟩⟩ =
      Quaternion.mk 0 ⟨1, 0, 0⟩ := by
    simp only [Quaternion.quotient, Quaternion.mk.injEq, Vector3.mk.injEq]
    norm_num
  have hp : Quaternion.product ⟨1, ⟨0, 0, 0⟩⟩ (Quaternion.inverse ⟨0, ⟨1, 0, 0⟩⟩) =
      Quaternion.mk 0 ⟨-1, 0, 0⟩ := by
    simp only [Quaternion.inverse, Quaternion.conjugate, Quaternion.div_scalar,
      Quaternion.product, Vector3.opposite, Vector3.quotient_scalar, Vector3.dot,
      Vector3.cross, Vector3.sum, Vector3.product_scalar, hn, Quaternion.mk.injEq,
      Vector3.mk.injEq]
    norm_num
  refine ⟨hn, hq, hp, ?_⟩
  rw [hq, hp]
  intro h
  have hx := congrArg (fun q => q.v.x) h
  norm_num at hx

/-- Claim C4 (code_bug): the claim (and the test test_quaternion_from_euler in
tests/utest_quaternion.rs) says from_euler_angles(90,0,0) matches
from_axis_angle([1,0,0],90) = (cos 45°, [sin 45°, 0, 0]), but the implemented
from_euler_angles(90,0,0) puts the sine in the z component:
(cos 45°, [0, 0, sin 45°]). -/
theorem C4_euler_disagrees_with_axis_angle :
    Quaternion.from_euler_angles 90 0 0 =
        ⟨Real.cos (Real.pi / 4), ⟨0, 0, Real.sin (Real.pi / 4)⟩⟩ ∧
      Quaternion.from_axis_angle ⟨1, 0, 0⟩ 90 =
        ⟨Real.cos (Real.pi / 4), ⟨Real.sin (Real.pi / 4), 0, 0⟩⟩ ∧
      Quaternion.from_euler_angles 90 0 0 ≠ Quaternion.from_axis_angle ⟨1, 0, 0⟩ 90 := by
  have h90 : toRadians 90 / 2 = Real.pi / 4 := by
    unfold toRadians; ring
  have h0 : toRadians 0 / 2 = 0 := by
    unfold toRadians; ring_nf
  have hs : Real.sin (Real.pi / 4) ≠ 0 := by
    rw [Real.sin_pi_div_four]
    positivity
  have he : Quaternion.from_euler_angles 90 0 0 =
      Quaternion.mk (Real.cos (Real.pi / 4)) ⟨0, 0, Real.sin (Real.pi / 4)⟩ := by
    simp [Quaternion.from_euler_angles, h90, h0]
  have ha : Quaternion.from_axis_angle ⟨1, 0, 0⟩ 90 =
      Quaternion.mk (Real.cos (Real.pi / 4)) ⟨Real.sin (Real.pi / 4), 0, 0⟩ := by
    simp [Quaternion.from_axis_angle, Vector3.product_scalar, h90]
  refine ⟨he, ha, ?_⟩
  rw [he, ha]
  intro h
  have hx := congrArg (fun q => q.v.x) h
  simp only [] at hx
  exact hs hx.symm

/-- Claim C3 (code_bug): the claim says q.log().exp() ≈ q for non-degenerate q
(norm ≠ 0, q ≠ identity).  The implemented log scales the vector part by
ln(norm), so for the unit, non-identity quaternion
q = (√2/2, [√2/2, 0, 0]) it yields the zero quaternion, and exp of that has
real part cos 0 = 1: the round trip lands on the identity, far from q.  (The
real part 1 ≠ √2/2 arises from cos 0 with no division involved, so the IEEE
NaN semantics of the float code diverges at the same input as well.) -/
theorem C3_exp_log_roundtrip_fails :
    (Quaternion.mk (Real.sqrt 2 / 2) ⟨Real.sqrt 2 / 2, 0, 0⟩).norm = 1 ∧
      Quaternion.mk (Real.sqrt 2 / 2) ⟨Real.sqrt 2 / 2, 0, 0⟩ ≠ Quaternion.identity ∧
      (Quaternion.mk (Real.sqrt 2 / 2) ⟨Real.sqrt 2 / 2, 0, 0⟩).log.exp =
        Quaternion.identity := by
  have h2 : Real.sqrt 2 * Real.sqrt 2 = 2 := Real.mul_self_sqrt (by norm_num)
  have hn : (Quaternion.mk (Real.sqrt 2 / 2) ⟨Real.sqrt 2 / 2, 0, 0⟩).norm = 1 := by
    have hsum : Real.sqrt 2 / 2 * (Real.sqrt 2 / 2) +
        (Real.sqrt 2 / 2 * (Real.sqrt 2 / 2) + 0 * 0 + 0 * 0) = 1 := by
      field_simp
    simp only [Quaternion.norm, Vector3.dot, hsum, Real.sqrt_one]
  have hne : Quaternion.mk (Real.sqrt 2 / 2) ⟨Real.sqrt 2 / 2, 0, 0⟩ ≠
      Quaternion.identity := by
    intro h
    have hw := congrArg (fun q => q.w) h
    simp only [Quaternion.identity] at hw
    have : Real.sqrt 2 = 2 := by linarith [hw]
    rw [this] at h2
    norm_num at h2
  have hlog : (Quaternion.mk (Real.sqrt 2 / 2) ⟨Real.sqrt 2 / 2, 0, 0⟩).log =
      Quaternion.mk 0 ⟨0, 0, 0⟩ := by
    simp [Quaternion.log, hn, Quaternion.versor, Vector3.quotient_scalar,
      Vector3.product_scalar]
  have hexp : (Quaternion.mk (0 : ℝ) ⟨0, 0, 0⟩).exp = Quaternion.identity := by
    have hz : (Quaternion.mk (0 : ℝ) ⟨0, 0, 0⟩).norm = 0 := by
      simp [Quaternion.norm, Vector3.dot]
    simp [Quaternion.exp, hz, Quaternion.versor, Vector3.quotient_scalar,
      Vector3.product_scalar, Quaternion.identity, Vector3.zero]
  exact ⟨hn, hne, by rw [hlog, hexp]⟩

/-- Helper: a quaternion of norm 1 has sum of squared components equal to 1. -/
theorem norm_one_sum_sq (q : Quaternion) (h : q.norm = 1) :
    q.w * q.w + (q.v.x * q.v.x + q.v.y * q.v.y + q.v.z * q.v.z) = 1 := by
  have h0 : 0 ≤ q.w * q.w + q.v.dot q.v := by
    simp only [Vector3.dot]
    nlinarith [mul_self_nonneg q.w, mul_self_nonneg q.v.x, mul_self_nonneg q.v.y,
      mul_self_nonneg q.v.z]
  have h1 := Real.sq_sqrt h0
  rw [Quaternion.norm] at h
  rw [h] at h1
  simpa [Vector3.dot] using h1.symm

/-- Claim C5: for every unit-norm quaternion q and every vector v, applying
q.rotation_matrix() to v via the library matrix-vector product
(Vector3::product_matrix, a row vector times the matrix) equals
q.rotate_vector(v); in the real-number model the agreement is exact. -/
theorem C5_rotation_matrix_matches_rotate_vector (q : Quaternion) (v : Vector3)
    (h : q.norm = 1) :
    v.product_matrix q.rotation_matrix = q.rotate_vector v := by
  have hs := norm_one_sum_sq q h
  simp only [Vector3.product_matrix, Quaternion.rotation_matrix,
    Quaternion.rotate_vector, Quaternion.product, Quaternion.conjugate,
    Vector3.cross, Vector3.dot, Vector3.sum, Vector3.product_scalar,
    Vector3.opposite, Vector3.mk.injEq]
  refine ⟨?_, ?_, ?_⟩
  · linear_combination v.x * hs
  · linear_combination v.y * hs
  · linear_combination v.z * hs

/-- Witness for C5 at q = identity (norm 1) and v = (1,2,3). -/
theorem C5_rotation_matrix_matches_rotate_vector_witness :
    Quaternion.identity.norm = 1 ∧
      Vector3.product_matrix ⟨1, 2, 3⟩ Quaternion.identity.rotation_matrix =
        Quaternion.identity.rotate_vector ⟨1, 2, 3⟩ := by
  have h : Quaternion.identity.norm = 1 := by
    simp [Quaternion.identity, Quaternion.norm, Vector3.dot, Vector3.zero]
  exact ⟨h, C5_rotation_matrix_matches_rotate_vector Quaternion.identity ⟨1, 2, 3⟩ h⟩

/-- Claim C8: for every vector v and every unit-norm quaternion q,
rotate_vector preserves the magnitude of v; in the real-number model the
equality is exact (hence within the 1e-5 relative tolerance of the claim). -/
theorem C8_rotate_vector_preserves_magnitude (q : Quaternion) (v : Vector3)
    (h : q.norm = 1) :
    (q.rotate_vector v).magnitude = v.magnitude := by
  have hs := norm_one_sum_sq q h
  simp only [Quaternion.rotate_vector, Quaternion.product, Quaternion.conjugate,
    Vector3.cross, Vector3.dot, Vector3.sum, Vector3.product_scalar,
    Vector3.opposite, Vector3.magnitude]
  congr 1
  linear_combination ((q.w * q.w + q.v.x * q.v.x + q.v.y * q.v.y + q.v.z * q.v.z + 1) *
    (v.x * v.x + v.y * v.y + v.z * v.z)) * hs

/-- Witness for C8 at q = identity (norm 1) and v = (3,4,0). -/
theorem C8_rotate_vector_preserves_magnitude_witness :
    Quaternion.identity.norm = 1 ∧
      (Quaternion.identity.rotate_vector ⟨3, 4, 0⟩).magnitude =
        (Vector3.mk 3 4 0).magnitude := by
  have h : Quaternion.identity.norm = 1 := by
    simp [Quaternion.identity, Quaternion.norm, Vector3.dot, Vector3.zero]
  exact ⟨h, C8_rotate_vector_preserves_magnitude Quaternion.identity ⟨3, 4, 0⟩ h⟩

end

end M3d
